import Mathlib

/-!
# Codex Vault — verification of the shell bridge and core contracts

A shallow embedding of the TypeScript shell (ApiService, useApi hooks,
SearchBar, ChatPane) of the Codex Vault application, together with models of
the core operations (checksum-gated model loading, retrieval-context
assembly, vector similarity search) whose Rust sources are consumed through
the bridge.  Strings are embedded as lists of characters so that the
JavaScript string operations used by the code (split on a single space,
join with a single space, trim) can be reasoned about exactly.
-/

/-- A JavaScript string, embedded as a list of characters. -/
abbrev Str := List Char

namespace CodexVault

/-- JavaScript `content.split(' ')`: split on every single space character.
`splitSpace []` is `[[]]`, matching `''.split(' ') == ['']`, and consecutive
spaces produce empty words, matching JavaScript. -/
def splitSpace : Str → List Str
  | [] => [[]]
  | c :: cs =>
    let r := splitSpace cs
    if c = ' ' then [] :: r
    else (c :: r.headD []) :: r.tail

/-- JavaScript `words.join(' ')`: concatenate with a single space between
consecutive words. -/
def joinSpace : List Str → Str
  | [] => []
  | [w] => w
  | w :: ws => w ++ ' ' :: joinSpace ws

/-- JavaScript `value.trim()`: strip whitespace from both ends. -/
def trimStr (s : Str) : Str :=
  ((s.dropWhile Char.isWhitespace).reverse.dropWhile Char.isWhitespace).reverse

/-- `AiResponse` from `services/api.ts`. -/
structure AiResponse where
  content : Str
  model : Str
  processing_time_ms : Nat
  tokens_used : Nat
  deriving DecidableEq, Repr

/-- A JavaScript error value as seen by the shell's catch blocks and by
`handleApiError` in `services/api.ts`: an `ApiError` instance, a plain
`Error`-like object with a `message` and possibly a `code` field, a bare
string, or anything else. -/
inductive JsErr where
  | apiErr (message : Str) (code : Option Str)
  | errObj (message : Option Str) (code : Option Str)
  | str (s : Str)
  | other
  deriving DecidableEq, Repr

/-- The `ApiError` class of `services/api.ts` (message plus optional
structured `code`). -/
structure ApiError where
  message : Str
  code : Option Str
  deriving DecidableEq, Repr

/-- JavaScript template interpolation of an error value: an `ApiError`
stringifies as name-colon-message, a plain `Error` as its name (modelled as
`Error`) with the message when present, a string as itself, and other
values as `[object Object]`. -/
def jsString : JsErr → Str
  | .apiErr m _ => "ApiError: ".toList ++ m
  | .errObj (some m) _ => "Error: ".toList ++ m
  | .errObj none _ => "Error".toList
  | .str s => s
  | .other => "[object Object]".toList

/-- `handleApiError` from `services/api.ts`: an `ApiError` is returned
unchanged; a string becomes an `ApiError` with no code; a value with a
truthy `message` keeps that message and whatever `code` field it carries;
everything else becomes the unknown-error `ApiError`. -/
def handleApiError : JsErr → ApiError
  | .apiErr m c => ⟨m, c⟩
  | .str s => ⟨s, none⟩
  | .errObj (some m) c =>
    if m = [] then ⟨"An unknown error occurred".toList, some "UNKNOWN_ERROR".toList⟩
    else ⟨m, c⟩
  | .errObj none _ => ⟨"An unknown error occurred".toList, some "UNKNOWN_ERROR".toList⟩
  | .other => ⟨"An unknown error occurred".toList, some "UNKNOWN_ERROR".toList⟩

/-- Every `ApiService` method's catch block rethrows
`new Error(prefix + error)`: the caught value is interpolated into a plain
string message on a fresh `Error` that carries no structured code. -/
def bridgeRethrow (pre : Str) (e : JsErr) : JsErr :=
  .errObj (some (pre ++ jsString e)) none

/-- `ApiService.generateAiResponse`: forwards the `generate_ai_response`
invoke outcome, rethrowing failures as a plain `Error` with the
`AI generation failed:` prefix. -/
def generateAiResponse (result : Except JsErr AiResponse) : Except JsErr AiResponse :=
  match result with
  | .ok r => .ok r
  | .error e => .error (bridgeRethrow "AI generation failed: ".toList e)

/-- `ApiService.searchDocuments`' failure path: rethrow as a plain `Error`
with the `Search failed:` prefix. -/
def searchDocumentsErr (e : JsErr) : JsErr :=
  bridgeRethrow "Search failed: ".toList e

/-- The cumulative chunk sequence emitted by
`ApiService.generateAiResponseStream`: for each index `i` below the number
of space-separated words of the content, the first `i + 1` words re-joined
with single spaces. -/
def chunkSeq (content : Str) : List Str :=
  (List.range (splitSpace content).length).map
    (fun i => joinSpace ((splitSpace content).take (i + 1)))

/-- The observable behaviour of one `generateAiResponseStream` call: the
arguments passed to `onChunk` in order, the argument passed to `onComplete`
(if reached), and the argument passed to `onError` (if reached).  The
method itself resolves with `undefined`, never with the text. -/
structure StreamTrace where
  chunks : List Str
  completed : Option AiResponse
  errored : Option Str
  deriving DecidableEq, Repr

/-- `ApiService.generateAiResponseStream`: awaits the complete
non-streaming `generateAiResponse`, then simulates streaming by invoking
`onChunk` once per space-separated word with the cumulative space-joined
prefix, then invokes `onComplete` with the unmodified response; on failure
it invokes `onError` with the error's message. -/
def generateAiResponseStream (result : Except JsErr AiResponse) : StreamTrace :=
  match generateAiResponse result with
  | .ok r => ⟨chunkSeq r.content, some r, none⟩
  | .error (.apiErr m _) => ⟨[], none, some m⟩
  | .error (.errObj (some m) _) => ⟨[], none, some m⟩
  | .error (.errObj none _) => ⟨[], none, some []⟩
  | .error e => ⟨[], none, some (jsString e)⟩

/-- `ApiService.healthCheck`: returns the `health_check` invoke outcome and
resolves to `false` instead of rethrowing when that invoke fails. -/
def healthCheck (outcome : Except JsErr Bool) : Except JsErr Bool :=
  match outcome with
  | .ok b => .ok b
  | .error _ => .ok false

/-- Every Tauri command name the `ApiService` bridge invokes, in order of
appearance in `services/api.ts`. -/
def apiInvokedCommands : List String :=
  ["search_documents", "get_document", "get_recent_documents",
   "get_favorite_documents", "toggle_favorite", "toggle_bookmark",
   "generate_ai_response", "get_system_metrics", "health_check",
   "get_categories", "increment_view_count", "share_document",
   "load_ai_model", "unload_ai_model"]

/-- The six operation names the spec says the core exposes to the shell.
This definition follows the spec's words, for comparison with
`apiInvokedCommands`, which is read off the source. -/
def specCoreOperations : List String :=
  ["load_model", "unload_model", "infer", "generate_stream",
   "get_memory_snapshot", "health_check"]

/-- Chat message role, from the `role` literals in `hooks/useApi.ts`. -/
inductive ChatRole where
  | user
  | assistant
  deriving DecidableEq, Repr

/-- `ChatMessage` as built by `useAiChat` (ids and timestamps come from
`Date.now()`). -/
structure ChatMessage where
  id : Nat
  role : ChatRole
  content : Str
  timestamp : Nat
  deriving DecidableEq, Repr

/-- The state managed by the `useAiChat` hook. -/
structure ChatState where
  messages : List ChatMessage
  isGenerating : Bool
  error : Option Str
  deriving DecidableEq, Repr

/-- What one `sendMessage` call did.  `rejectedBusy` is the spec's
alternative of surfacing `EngineBusyError` to the caller; it is part of the
observation space so the spec's claim can be stated, and the code decides
which outcomes actually occur. -/
inductive SendOutcome where
  | ignored
  | started
  | rejectedBusy
  deriving DecidableEq, Repr

/-- `useAiChat.sendMessage` run to completion, with `Date.now()` and the
`generateAiResponse` outcome passed explicitly: if the trimmed prompt is
empty or a generation is already in flight it returns immediately with no
effect; otherwise it appends the user message, marks generation in flight,
awaits the response, and either appends the assistant message or records
the handled error message, finally clearing the in-flight flag. -/
def sendMessage (now : Nat) (prompt : Str) (apiResult : Except JsErr AiResponse)
    (s : ChatState) : SendOutcome × ChatState :=
  if trimStr prompt = [] ∨ s.isGenerating = true then (.ignored, s)
  else
    let userMessage : ChatMessage := ⟨now, .user, trimStr prompt, now⟩
    match generateAiResponse apiResult with
    | .ok r =>
      let assistantMessage : ChatMessage := ⟨now + 1, .assistant, r.content, now⟩
      (.started, ⟨s.messages ++ [userMessage, assistantMessage], false, none⟩)
    | .error e =>
      (.started, ⟨s.messages ++ [userMessage], false, some (handleApiError e).message⟩)

/-- A search result row as held by the `useSearch` hook. -/
structure SearchResultItem where
  id : Str
  title : Str
  deriving DecidableEq, Repr

/-- The search request `SearchBar.handleInputChange` hands to
`useSearch.search` (which forwards it to the `search_documents` command). -/
structure SearchRequest where
  query : Str
  category : Option Str
  searchType : Str
  lim : Nat
  deriving DecidableEq, Repr

/-- The state visible to `SearchBar` (its own `query`/`showResults` state
plus the `useSearch` hook's `results`/`error`). -/
structure SearchBarState where
  query : Str
  showResults : Bool
  results : List SearchResultItem
  errorMsg : Option Str
  selectedCategory : Str
  searchKind : Str
  deriving DecidableEq, Repr

/-- `SearchBar.handleInputChange`: store the raw value; when the trimmed
value is longer than 2 characters, show the dropdown and issue a search
with the trimmed query, the selected category (omitted when empty), the
current search type and limit 10; otherwise clear the results and hide the
dropdown without issuing a search. -/
def handleInputChange (value : Str) (s : SearchBarState) :
    SearchBarState × Option SearchRequest :=
  if 2 < (trimStr value).length then
    ({ s with query := value, showResults := true },
     some ⟨trimStr value,
       (if s.selectedCategory = [] then none else some s.selectedCategory),
       s.searchKind, 10⟩)
  else
    ({ s with query := value, results := [], errorMsg := none, showResults := false },
     none)

/-- Modelled from the spec: the Rust `codex-core` crate referenced by
`codex-vault-app/Cargo.toml` is not under `src/`, so the ChecksumVerifier's
streaming digest is modelled as a position-weighted byte sum accumulated
left to right.  It shares the property the spec relies on: changing any
single byte of the file changes the digest. -/
def weightedSum : List Nat → Nat → Nat
  | [], _ => 0
  | b :: bs, w => w * b + weightedSum bs (w + 1)

/-- Modelled from the spec: the ChecksumVerifier's digest of a whole file. -/
def digest (bytes : List Nat) : Nat :=
  weightedSum bytes 1

/-- The load-attempt error kinds named by the spec. -/
inductive LoadError where
  | integrityError
  | parseError
  | resourceExhausted
  deriving DecidableEq, Repr

/-- A tensor descriptor: name, byte offset and byte length into the file. -/
structure TensorDesc where
  name : Str
  offset : Nat
  byteLen : Nat
  deriving DecidableEq, Repr

/-- Modelled from the spec: the parsed model container (its ordered tensor
directory is what load materializes). -/
structure ParsedModelM where
  tensors : List TensorDesc
  deriving DecidableEq, Repr

/-- A loaded model: descriptors whose buffers have been materialized. -/
structure LoadedModelM where
  tensors : List TensorDesc
  deriving DecidableEq, Repr

/-- The GGUF magic bytes. -/
def magicGGUF : List Nat := [71, 71, 85, 70]

/-- Modelled from the spec: the ModelFormatParser, reduced to the magic
check and a tensor directory covering the payload; the parse details do not
matter for the integrity-gate claim, only that parsing happens after
checksum verification. -/
def parseModelFile (bytes : List Nat) : Except LoadError ParsedModelM :=
  if bytes.take 4 = magicGGUF then
    .ok ⟨[⟨"tensor0".toList, 4, bytes.length - 4⟩]⟩
  else .error .parseError

namespace ModelLoader

/-- Modelled from the spec: `ModelLoader.load` verifies the checksum first
and aborts with `IntegrityError` on mismatch, before parsing and before any
tensor is materialized.  The first component is the materialization trace:
the tensors whose buffers were actually materialized during the attempt. -/
def load (declaredDigest : Nat) (bytes : List Nat) :
    List TensorDesc × Except LoadError LoadedModelM :=
  if digest bytes = declaredDigest then
    match parseModelFile bytes with
    | .ok pm => (pm.tensors, .ok ⟨pm.tensors⟩)
    | .error e => ([], .error e)
  else ([], .error .integrityError)

end ModelLoader

/-- Modelled from the spec: a candidate chunk carried through the
RetrievalEngine with its lexical score, vector score and estimated token
count (a tokenizer estimate, attached per chunk). -/
structure ScoredChunk where
  docId : Nat
  chunkIdx : Nat
  lexScore : ℚ
  vecScore : ℚ
  tokenCount : Nat
  deriving DecidableEq, Repr

/-- The configurable fused-score weights of the RetrievalEngine. -/
structure FusionWeights where
  wLex : ℚ
  wVec : ℚ
  deriving DecidableEq, Repr

/-- The fused score: a weighted combination of the normalized lexical score
and the vector similarity. -/
def fusedScore (w : FusionWeights) (c : ScoredChunk) : ℚ :=
  w.wLex * c.lexScore + w.wVec * c.vecScore

/-- RetrievalEngine ranking: descending fused score, ties broken by
preferring the chunk with higher vector similarity. -/
def chunkRank (w : FusionWeights) (a b : ScoredChunk) : Prop :=
  fusedScore w b < fusedScore w a ∨
    (fusedScore w a = fusedScore w b ∧ b.vecScore ≤ a.vecScore)

instance (w : FusionWeights) : DecidableRel (chunkRank w) := fun a b => by
  unfold chunkRank
  infer_instance

/-- Modelled from the spec: greedy selection under the token budget — take
chunks in ranked order until the next chunk's estimated tokens would
exceed the remaining budget. -/
def greedyTake (budget : Nat) : List ScoredChunk → List ScoredChunk
  | [] => []
  | c :: cs =>
    if c.tokenCount ≤ budget then c :: greedyTake (budget - c.tokenCount) cs
    else []

/-- The estimated token count of an assembled context. -/
def contextTokens (ctx : List ScoredChunk) : Nat :=
  (ctx.map ScoredChunk.tokenCount).sum

/-- Modelled from the spec: the RetrievalEngine's `build_context` over an
already-merged candidate set — drop candidates below `min_score`, sort
descending by fused score (vector similarity breaking ties), then greedily
select under the token budget. -/
def build_context (w : FusionWeights) (minScore : ℚ) (candidates : List ScoredChunk)
    (tokenBudget : Nat) : List ScoredChunk :=
  greedyTake tokenBudget
    (List.insertionSort (chunkRank w)
      (candidates.filter (fun c => minScore ≤ c.vecScore)))

/-- A stored vector with its chunk index, as held by the VectorIndex. -/
structure VecEntry where
  chunkId : Nat
  vec : List ℚ
  deriving DecidableEq, Repr

/-- Dot product of two rational vectors (the spec L2-normalizes embeddings
so that cosine similarity reduces to a dot product). -/
def dotQ : List ℚ → List ℚ → ℚ
  | [], _ => 0
  | _, [] => 0
  | x :: xs, y :: ys => x * y + dotQ xs ys

/-- The similarity score of a stored entry against the query vector. -/
def simScore (q : List ℚ) (e : VecEntry) : ℚ :=
  dotQ q e.vec

/-- VectorIndex ranking: descending similarity score, ties broken by the
lower chunk index. -/
def simRank (q : List ℚ) (a b : VecEntry) : Prop :=
  simScore q b < simScore q a ∨
    (simScore q a = simScore q b ∧ a.chunkId ≤ b.chunkId)

instance (q : List ℚ) : DecidableRel (simRank q) := fun a b => by
  unfold simRank
  infer_instance

/-- Modelled from the spec: `similarity_search(query_vector, k, min_score)`
over the VectorIndex's stored entries — filter out entries below
`min_score`, sort by descending cosine similarity with ties broken by the
lower chunk index, and return the top `k` as `(chunk_id, score)` pairs. -/
def similarity_search (q : List ℚ) (k : Nat) (minScore : ℚ)
    (entries : List VecEntry) : List (Nat × ℚ) :=
  ((List.insertionSort (simRank q)
      (entries.filter (fun e => minScore ≤ simScore q e))).take k).map
    (fun e => (e.chunkId, simScore q e))

instance (q : List ℚ) : IsTotal VecEntry (simRank q) :=
  ⟨by
    intro a b
    unfold simRank
    rcases lt_trichotomy (simScore q a) (simScore q b) with h | h | h
    · exact Or.inr (Or.inl h)
    · rcases le_total a.chunkId b.chunkId with hc | hc
      · exact Or.inl (Or.inr ⟨h, hc⟩)
      · exact Or.inr (Or.inr ⟨h.symm, hc⟩)
    · exact Or.inl (Or.inl h)⟩

instance (q : List ℚ) : IsTrans VecEntry (simRank q) :=
  ⟨by
    intro a b c hab hbc
    unfold simRank at hab hbc ⊢
    rcases hab with h1 | ⟨h1, h1'⟩ <;> rcases hbc with h2 | ⟨h2, h2'⟩
    · exact Or.inl (lt_trans h2 h1)
    · exact Or.inl (by rw [← h2]; exact h1)
    · exact Or.inl (by rw [h1]; exact h2)
    · exact Or.inr ⟨h1.trans h2, le_trans h1' h2'⟩⟩

theorem splitSpace_ne_nil (s : Str) : splitSpace s ≠ [] := by
  cases s with
  | nil => simp [splitSpace]
  | cons c cs =>
    simp only [splitSpace]
    split <;> simp

theorem joinSpace_cons (w : Str) (ws : List Str) (hws : ws ≠ []) :
    joinSpace (w :: ws) = w ++ ' ' :: joinSpace ws := by
  cases ws with
  | nil => exact absurd rfl hws
  | cons w' ws' => rfl

/-- Splitting on single spaces and re-joining with single spaces is the
identity on every string (JavaScript `s.split(' ').join(' ') === s`). -/
theorem joinSpace_splitSpace (s : Str) : joinSpace (splitSpace s) = s := by
  induction s with
  | nil => rfl
  | cons c cs ih =>
    simp only [splitSpace]
    by_cases hc : c = ' '
    · subst hc
      rw [if_pos rfl, joinSpace_cons _ _ (splitSpace_ne_nil cs), ih]
      rfl
    · rw [if_neg hc]
      cases h : splitSpace cs with
      | nil => exact absurd h (splitSpace_ne_nil cs)
      | cons w ws =>
        cases ws with
        | nil =>
          simp only [List.headD, List.tail]
          have h2 : joinSpace [w] = cs := by rw [← h]; exact ih
          simp only [joinSpace] at h2
          simp [joinSpace, h2]
        | cons w' ws' =>
          simp only [List.headD, List.tail]
          have h2 : joinSpace (w :: w' :: ws') = cs := by rw [← h]; exact ih
          rw [joinSpace_cons w (w' :: ws') (by simp)] at h2
          rw [joinSpace_cons (c :: w) (w' :: ws') (by simp), List.cons_append, h2]

theorem chunkSeq_length (content : Str) :
    (chunkSeq content).length = (splitSpace content).length := by
  simp [chunkSeq]

/-- The last chunk emitted by the simulated stream is exactly the original
content. -/
theorem chunkSeq_getLast (content : Str) :
    (chunkSeq content).getLast? = some content := by
  unfold chunkSeq
  obtain ⟨n, hn⟩ : ∃ n, (splitSpace content).length = n + 1 := by
    cases h : splitSpace content with
    | nil => exact absurd h (splitSpace_ne_nil content)
    | cons w ws => exact ⟨ws.length, by simp⟩
  rw [hn, List.range_succ, List.map_append, List.map_cons, List.map_nil,
    List.getLast?_concat]
  have htake : (splitSpace content).take (n + 1) = splitSpace content := by
    rw [← hn]
    exact List.take_length _
  rw [htake, joinSpace_splitSpace]

/-- Two lists that are permutations of each other, both sorted by `r`, and
on whose members `r` is antisymmetric, are equal. -/
theorem eq_of_perm_of_sorted_of_antisymmOn {α : Type _} {r : α → α → Prop}
    {l₁ l₂ : List α} (hp : l₁.Perm l₂) (hs₁ : l₁.Sorted r) (hs₂ : l₂.Sorted r)
    (hanti : ∀ a ∈ l₁, ∀ b ∈ l₁, r a b → r b a → a = b) : l₁ = l₂ := by
  induction l₁ generalizing l₂ with
  | nil => exact hp.nil_eq
  | cons a t₁ ih =>
    cases l₂ with
    | nil => exact absurd hp.symm.nil_eq (by simp)
    | cons b t₂ =>
      have hab : a = b := by
        by_contra hne
        have ha2 : a ∈ b :: t₂ := hp.subset (List.mem_cons_self _ _)
        have hb1 : b ∈ a :: t₁ := hp.symm.subset (List.mem_cons_self _ _)
        have hat2 : a ∈ t₂ := by
          rcases List.mem_cons.mp ha2 with h | h
          · exact absurd h hne
          · exact h
        have hbt1 : b ∈ t₁ := by
          rcases List.mem_cons.mp hb1 with h | h
          · exact absurd h.symm hne
          · exact h
        have hrab : r a b := List.rel_of_sorted_cons hs₁ b hbt1
        have hrba : r b a := List.rel_of_sorted_cons hs₂ a hat2
        exact hne (hanti a (List.mem_cons_self _ _) b
          (List.mem_cons.mpr (Or.inr hbt1)) hrab hrba)
      subst hab
      have ht : t₁ = t₂ := ih hp.cons_inv hs₁.of_cons hs₂.of_cons
        (fun x hx y hy => hanti x (List.mem_cons.mpr (Or.inr hx))
          y (List.mem_cons.mpr (Or.inr hy)))
      rw [ht]

theorem weightedSum_set_ne (v : Nat) : ∀ (l : List Nat) (i w : Nat), 0 < w →
    i < l.length → v ≠ l.getD i 0 →
    weightedSum (l.set i v) w ≠ weightedSum l w := by
  intro l
  induction l with
  | nil =>
    intro i w _ h _
    simp at h
  | cons b bs ih =>
    intro i w hw h hv
    cases i with
    | zero =>
      simp only [List.set, weightedSum]
      have hb : v ≠ b := by simpa using hv
      intro hEq
      exact hb (Nat.eq_of_mul_eq_mul_left hw (Nat.add_right_cancel hEq))
    | succ j =>
      simp only [List.set, weightedSum]
      intro hEq
      have h' : j < bs.length := by simpa using h
      have hv' : v ≠ bs.getD j 0 := by simpa using hv
      exact ih j (w + 1) (Nat.succ_pos w) h' hv' (Nat.add_left_cancel hEq)

/-- Changing any single byte of a file changes its digest. -/
theorem digest_set_ne (l : List Nat) (i v : Nat) (h : i < l.length)
    (hv : v ≠ l.getD i 0) : digest (l.set i v) ≠ digest l :=
  weightedSum_set_ne v l i 1 Nat.one_pos h hv

/-- The greedy budgeted selection never exceeds the budget. -/
theorem greedyTake_tokens_le : ∀ (l : List ScoredChunk) (budget : Nat),
    contextTokens (greedyTake budget l) ≤ budget := by
  intro l
  induction l with
  | nil =>
    intro budget
    simp [greedyTake, contextTokens]
  | cons c cs ih =>
    intro budget
    unfold greedyTake
    by_cases hc : c.tokenCount ≤ budget
    · rw [if_pos hc]
      have hrest := ih (budget - c.tokenCount)
      simp only [contextTokens, List.map_cons, List.sum_cons] at hrest ⊢
      omega
    · rw [if_neg hc]
      simp [contextTokens]

/-- C1 (counterexample): the streaming bridge does not invoke the callback
once per produced token — for a response whose content is the two words
`hello world` produced from 5 tokens, `onChunk` is invoked twice, not
5 times. -/
theorem generateAiResponseStream_not_per_token :
    ¬ ((generateAiResponseStream (.ok ⟨"hello world".toList, "llama".toList, 100, 5⟩)).chunks.length
        = (AiResponse.mk "hello world".toList "llama".toList 100 5).tokens_used) := by
  decide

/-- C1 (amended): `generateAiResponseStream` simulates streaming over the
already-completed non-streaming response: `onChunk` is invoked once per
space-separated word of the content (not once per produced token), and the
final assembled text reaches the consumer through `onComplete` with the
response unmodified, not as a return value. -/
theorem generateAiResponseStream_word_chunks (r : AiResponse) :
    (generateAiResponseStream (.ok r)).chunks.length = (splitSpace r.content).length ∧
    (generateAiResponseStream (.ok r)).completed = some r ∧
    (generateAiResponseStream (.ok r)).errored = none := by
  refine ⟨?_, rfl, rfl⟩
  simp [generateAiResponseStream, generateAiResponse, chunkSeq_length]

/-- C2 (counterexample): the shell's API bridge invokes the Tauri command
`search_documents`, which is not one of the six operations the spec says
the core exposes — so not every operation the bridge invokes is among the
six, under those names. -/
theorem apiInvokedCommands_not_subset_spec :
    "search_documents" ∈ apiInvokedCommands ∧
    "search_documents" ∉ specCoreOperations := by
  decide

/-- C2 (amended): of the spec's six operation names only `health_check` is
invoked verbatim; model loading, unloading, inference and metrics are
invoked under the different names `load_ai_model`, `unload_ai_model`,
`generate_ai_response` and `get_system_metrics`, no streaming command is
invoked at all, and the bridge invokes fourteen commands in total,
including document/search/UI concerns. -/
theorem apiInvokedCommands_refinement :
    apiInvokedCommands.filter (fun c => decide (c ∈ specCoreOperations))
      = ["health_check"] ∧
    "load_ai_model" ∈ apiInvokedCommands ∧
    "unload_ai_model" ∈ apiInvokedCommands ∧
    "generate_ai_response" ∈ apiInvokedCommands ∧
    "get_system_metrics" ∈ apiInvokedCommands ∧
    "generate_stream" ∉ apiInvokedCommands ∧
    "infer" ∉ apiInvokedCommands ∧
    "load_model" ∉ apiInvokedCommands ∧
    apiInvokedCommands.length = 14 := by
  decide

/-- C3 (counterexample): while a generation is in flight, a second
`sendMessage` call is silently ignored — it neither waits (the call
completes immediately with the state unchanged) nor surfaces
`EngineBusyError` (the outcome is `ignored`, not `rejectedBusy`, and no
error is recorded). -/
theorem sendMessage_busy_not_rejectedBusy :
    sendMessage 1 "hi".toList (.ok ⟨"ok".toList, "m".toList, 1, 1⟩)
        ⟨[], true, none⟩
      = (SendOutcome.ignored, ⟨[], true, none⟩) ∧
    SendOutcome.ignored ≠ SendOutcome.rejectedBusy := by
  decide

/-- C3 (amended): generation requests are serialized by the `isGenerating`
guard — a second `sendMessage` while one is in flight is silently dropped:
it returns immediately with the chat state unchanged (so the two
generations are never interleaved), without surfacing `EngineBusyError` or
any other error. -/
theorem sendMessage_busy_ignored (now : Nat) (prompt : Str)
    (res : Except JsErr AiResponse) (s : ChatState)
    (hbusy : s.isGenerating = true) :
    sendMessage now prompt res s = (SendOutcome.ignored, s) := by
  unfold sendMessage
  rw [if_pos (Or.inr hbusy)]

theorem sendMessage_busy_ignored_witness :
    (⟨[⟨0, .user, "q".toList, 0⟩], true, none⟩ : ChatState).isGenerating = true ∧
    sendMessage 7 "second".toList (.ok ⟨"ok".toList, "m".toList, 1, 1⟩)
        ⟨[⟨0, .user, "q".toList, 0⟩], true, none⟩
      = (SendOutcome.ignored, ⟨[⟨0, .user, "q".toList, 0⟩], true, none⟩) :=
  ⟨rfl, sendMessage_busy_ignored 7 "second".toList
    (.ok ⟨"ok".toList, "m".toList, 1, 1⟩) _ rfl⟩

/-- C4 (counterexample): the structured error kind is not preserved through
the bridge — an underlying error carrying the kind `IntegrityError` comes
out of `handleApiError`, after the `searchDocuments` catch block rethrows
it, as an `ApiError` whose `code` is `none` rather than `IntegrityError`. -/
theorem handleApiError_kind_flattened :
    (handleApiError (searchDocumentsErr
        (JsErr.errObj (some "checksum mismatch".toList)
          (some "IntegrityError".toList)))).code = none ∧
    some "IntegrityError".toList ≠ (none : Option Str) := by
  decide

/-- C4 (amended): every failure of a core operation reaches the user
through the bridge as a human-readable message only: the `ApiService`
catch blocks interpolate the underlying error into a plain `Error` string,
so `handleApiError` always yields an `ApiError` whose message is the
prefixed interpolation and whose structured `code` is `none` — the kind is
flattened, not preserved. -/
theorem bridge_flattens_error_kind (e : JsErr) :
    handleApiError (searchDocumentsErr e)
      = ⟨"Search failed: ".toList ++ jsString e, none⟩ := by
  have h1 : "Search failed: ".toList ≠ ([] : Str) := by decide
  have hne : "Search failed: ".toList ++ jsString e ≠ [] := fun hcontra =>
    h1 (List.append_eq_nil.mp hcontra).1
  simp only [searchDocumentsErr, bridgeRethrow, handleApiError]
  rw [if_neg hne]

/-- C5: for every file and every single-byte modification of it, loading
the modified file against the original file's digest fails with
`IntegrityError` and materializes no tensor (no partial model state). -/
theorem load_flip_integrityError (l : List Nat) (i v : Nat)
    (h : i < l.length) (hv : v ≠ l.getD i 0) :
    ModelLoader.load (digest l) (l.set i v)
      = ([], .error .integrityError) := by
  unfold ModelLoader.load
  rw [if_neg (digest_set_ne l i v h hv)]

theorem load_flip_integrityError_witness :
    (4 < ([71, 71, 85, 70, 1, 2, 3] : List Nat).length) ∧
    (9 : Nat) ≠ ([71, 71, 85, 70, 1, 2, 3] : List Nat).getD 4 0 ∧
    ModelLoader.load (digest [71, 71, 85, 70, 1, 2, 3])
        (([71, 71, 85, 70, 1, 2, 3] : List Nat).set 4 9)
      = ([], .error .integrityError) :=
  ⟨by decide, by decide,
    load_flip_integrityError [71, 71, 85, 70, 1, 2, 3] 4 9 (by decide) (by decide)⟩

/-- C6: for every fusion weighting, minimum score, candidate set and token
budget, the context assembled by `build_context` has an estimated token
count that never exceeds the requested budget. -/
theorem build_context_within_budget (w : FusionWeights) (minScore : ℚ)
    (candidates : List ScoredChunk) (tokenBudget : Nat) :
    contextTokens (build_context w minScore candidates tokenBudget) ≤ tokenBudget :=
  greedyTake_tokens_le _ _

/-- C7: `similarity_search` is invariant to the insertion order of the
stored vectors — any two insertion orders of the same set of entries (with
distinct chunk indices) produce the same ranked list of
`(chunk_id, score)` pairs, ties resolved toward the lower chunk index. -/
theorem similarity_search_perm_invariant (q : List ℚ) (k : Nat) (m : ℚ)
    (l₁ l₂ : List VecEntry) (hperm : l₁.Perm l₂)
    (hnodup : (l₁.map VecEntry.chunkId).Nodup) :
    similarity_search q k m l₁ = similarity_search q k m l₂ := by
  unfold similarity_search
  have hf : (l₁.filter fun e => decide (m ≤ simScore q e)).Perm
      (l₂.filter fun e => decide (m ≤ simScore q e)) := hperm.filter _
  have hs₁ := List.sorted_insertionSort (simRank q)
    (l₁.filter fun e => decide (m ≤ simScore q e))
  have hs₂ := List.sorted_insertionSort (simRank q)
    (l₂.filter fun e => decide (m ≤ simScore q e))
  have hp12 : (List.insertionSort (simRank q)
        (l₁.filter fun e => decide (m ≤ simScore q e))).Perm
      (List.insertionSort (simRank q)
        (l₂.filter fun e => decide (m ≤ simScore q e))) :=
    (List.perm_insertionSort _ _).trans
      (hf.trans (List.perm_insertionSort _ _).symm)
  have hanti : ∀ a ∈ List.insertionSort (simRank q)
        (l₁.filter fun e => decide (m ≤ simScore q e)),
      ∀ b ∈ List.insertionSort (simRank q)
        (l₁.filter fun e => decide (m ≤ simScore q e)),
      simRank q a b → simRank q b a → a = b := by
    intro a ha b hb hab hba
    have ha1 : a ∈ l₁ := List.mem_of_mem_filter ((List.mem_insertionSort _).mp ha)
    have hb1 : b ∈ l₁ := List.mem_of_mem_filter ((List.mem_insertionSort _).mp hb)
    unfold simRank at hab hba
    rcases hab with h1 | ⟨h1, h1'⟩ <;> rcases hba with h2 | ⟨h2, h2'⟩
    · exact absurd h2 (lt_asymm h1)
    · exact absurd h2 (ne_of_lt h1)
    · exact absurd h1 (ne_of_lt h2)
    · exact List.inj_on_of_nodup_map hnodup ha1 hb1 (le_antisymm h1' h2')
  rw [eq_of_perm_of_sorted_of_antisymmOn hp12 hs₁ hs₂ hanti]

theorem similarity_search_perm_invariant_witness :
    ([⟨1, [1, 0]⟩, ⟨2, [0, 1]⟩] : List VecEntry).Perm [⟨2, [0, 1]⟩, ⟨1, [1, 0]⟩] ∧
    (([⟨1, [1, 0]⟩, ⟨2, [0, 1]⟩] : List VecEntry).map VecEntry.chunkId).Nodup ∧
    similarity_search [1, 0] 2 0 [⟨1, [1, 0]⟩, ⟨2, [0, 1]⟩]
      = similarity_search [1, 0] 2 0 [⟨2, [0, 1]⟩, ⟨1, [1, 0]⟩] :=
  ⟨List.Perm.swap _ _ _, by decide,
    similarity_search_perm_invariant [1, 0] 2 0 _ _ (List.Perm.swap _ _ _) (by decide)⟩

/-- C8: `ApiService.healthCheck` never rejects — for every outcome of the
underlying `health_check` invocation it resolves to a boolean, and it
resolves to `false` whenever that invocation throws. -/
theorem healthCheck_never_rejects :
    (∀ o : Except JsErr Bool, ∃ b : Bool, healthCheck o = .ok b) ∧
    (∀ e : JsErr, healthCheck (.error e) = .ok false) := by
  constructor
  · intro o
    cases o with
    | ok b => exact ⟨b, rfl⟩
    | error e => exact ⟨false, rfl⟩
  · intro e
    rfl

/-- C9: for every successful response, the stream delivers to `onChunk`
exactly the cumulative space-joined word prefixes of the content, the
final chunk equals the content exactly (splitting on single spaces and
re-joining is the identity), and `onComplete` then receives the unmodified
response. -/
theorem generateAiResponseStream_cumulative_prefixes (r : AiResponse) :
    (generateAiResponseStream (.ok r)).chunks
      = (List.range (splitSpace r.content).length).map
          (fun i => joinSpace ((splitSpace r.content).take (i + 1))) ∧
    (generateAiResponseStream (.ok r)).chunks.getLast? = some r.content ∧
    (generateAiResponseStream (.ok r)).completed = some r := by
  refine ⟨rfl, ?_, rfl⟩
  exact chunkSeq_getLast r.content

/-- C10: on every input change whose trimmed text has length at most 2,
`SearchBar.handleInputChange` issues no search request, clears the
previously shown results and hides the dropdown; a search request is
issued only when the trimmed length exceeds 2. -/
theorem handleInputChange_min_query (value : Str) (s : SearchBarState) :
    ((trimStr value).length ≤ 2 →
      (handleInputChange value s).2 = none ∧
      (handleInputChange value s).1.results = [] ∧
      (handleInputChange value s).1.showResults = false) ∧
    (∀ req, (handleInputChange value s).2 = some req →
      2 < (trimStr value).length) := by
  constructor
  · intro hle
    unfold handleInputChange
    rw [if_neg (by omega)]
    exact ⟨rfl, rfl, rfl⟩
  · intro req hreq
    by_contra hgt
    unfold handleInputChange at hreq
    rw [if_neg hgt] at hreq
    exact Option.noConfusion hreq

theorem handleInputChange_min_query_witness :
    (trimStr "  ab ".toList).length ≤ 2 ∧
    ((handleInputChange "  ab ".toList
        ⟨"a".toList, true, [⟨"1".toList, "t".toList⟩], some "e".toList,
          [], "all".toList⟩).2 = none ∧
      (handleInputChange "  ab ".toList
        ⟨"a".toList, true, [⟨"1".toList, "t".toList⟩], some "e".toList,
          [], "all".toList⟩).1.results = [] ∧
      (handleInputChange "  ab ".toList
        ⟨"a".toList, true, [⟨"1".toList, "t".toList⟩], some "e".toList,
          [], "all".toList⟩).1.showResults = false) :=
  ⟨by decide, (handleInputChange_min_query "  ab ".toList _).1 (by decide)⟩

end CodexVault
